import Mathlib

/-!
Verification of the tree parser and filesystem materializer of
`create_structure.py` (structure-builder).

The parser `parse_structure_file` reads lines, filters editorial lines,
computes an indentation depth per line, maintains a path stack, and emits
`(path, kind)` entries.  We embed it shallowly: lines are Lean `String`s
(one list element per line, trailing newlines already removed by the model's
`pyRstrip`, matching the source's `line.rstrip()`), the character-level
operations of the source (`rstrip`, `strip`, the two regexes, `count`,
`replace`, `split('#')`, `'/'.join`) are modelled as executable functions on
`List Char`.  Whitespace is modelled by the ASCII whitespace characters
recognised by Python's `str.strip` and the regex class on such input.
-/

namespace StructureBuilder

inductive Kind where
  | dir
  | file
deriving DecidableEq

structure Entry where
  path : String
  kind : Kind
deriving DecidableEq

/-- ASCII whitespace as recognised by Python's `str.strip`/`rstrip` and
the regex class on the inputs in scope. -/
def isPySpace (c : Char) : Bool :=
  c == ' ' || c == '\t' || c == '\n' || c == '\r' || c == Char.ofNat 11 || c == Char.ofNat 12

/-- The four box-drawing glyphs the source counts: `│ ├ └ ─`. -/
def isBoxChar (c : Char) : Bool :=
  c == '│' || c == '├' || c == '└' || c == '─'

def backtickChar : Char := Char.ofNat 96

/-- Model of `line.rstrip()`. -/
def pyRstrip (l : List Char) : List Char :=
  (l.reverse.dropWhile isPySpace).reverse

/-- Model of `s.strip()`. -/
def pyStrip (l : List Char) : List Char :=
  ((l.dropWhile isPySpace).reverse.dropWhile isPySpace).reverse

/-- Separator test `set(line) == \x7b'-', ' '\x7d`: the line consists of
dashes and spaces only and contains at least one of each. -/
def isSepLine (l : List Char) : Bool :=
  l.all (fun c => c == '-' || c == ' ') && l.contains '-' && l.contains ' '

/-- Fence test `line.startswith` on three backticks. -/
def isFence (l : List Char) : Bool :=
  l.take 3 == [backtickChar, backtickChar, backtickChar]

/-- Skip test of the source: `if not line or set(line) == \x7b'-', ' '\x7d
or line.startswith(fence): continue`, applied to the rstripped line. -/
def skipLine (line : String) : Bool :=
  let l := pyRstrip line.data
  l.isEmpty || isSepLine l || isFence l

/-- The indentation/label split of the source.  First regex:
`^([box or whitespace]*)([^box].*)$` with a greedy first group — the longest
leading run of box/whitespace characters such that at least one character
follows and that character is not a box glyph.  If it cannot match (the line
is made of box glyphs only), the fallback regex `^(\s*)(.*)$` applies; its
leading-whitespace group is then empty. -/
def parseIndent (l : List Char) : List Char × List Char :=
  let k := (l.takeWhile (fun c => isBoxChar c || isPySpace c)).length
  if k < l.length then
    (l.take k, l.drop k)
  else
    let t := (l.reverse.takeWhile isBoxChar).length
    if t < l.length then
      (l.take (l.length - t - 1), l.drop (l.length - t - 1))
    else
      ([], l)

def lineParts (line : String) : List Char × List Char :=
  parseIndent (pyRstrip line.data)

def lineIndent (line : String) : List Char := (lineParts line).1

/-- Label part `item = match.group(2).strip()`. -/
def rawItem (line : String) : List Char := pyStrip (lineParts line).2

/-- Depth of a line: count of each box glyph in the indent part, plus the
length of the indent with those glyphs removed, integer-divided by 2. -/
def lineDepth (line : String) : Nat :=
  let ind := lineIndent line
  ind.count '│' + ind.count '├' + ind.count '└' + ind.count '─'
    + (ind.filter (fun c => !(c == '│' || c == '├' || c == '└' || c == '─'))).length / 2

/-- Comment stripping `item = item.split('#')[0].strip()`. -/
def cleanItem (line : String) : List Char :=
  pyStrip ((rawItem line).takeWhile (fun c => !(c == '#')))

/-- Model of `'/'.join(parts)` at the character level. -/
def joinSlash : List (List Char) → List Char
  | [] => []
  | [x] => x
  | x :: y :: xs => x ++ '/' :: joinSlash (y :: xs)

structure ParseState where
  out : List Entry
  stack : List (List Char)
deriving DecidableEq

/-- The body of the parsing loop after the depth and cleaned label are
known: pop the stack down to `depth` (`while len(current_path) > depth:
pop`, i.e. `take depth`), discard the line if the cleaned label is empty,
push-and-emit a directory if the label ends in `/`, otherwise emit a file
without pushing. -/
def processContent (s : ParseState) (depth : Nat) (item : List Char) : ParseState :=
  let stack1 := s.stack.take depth
  if item.isEmpty then
    ⟨s.out, stack1⟩
  else if item.getLast? = some '/' then
    let stack2 := stack1 ++ [item.dropLast]
    ⟨s.out ++ [⟨⟨joinSlash stack2⟩, Kind.dir⟩], stack2⟩
  else
    ⟨s.out ++ [⟨⟨joinSlash (stack1 ++ [item])⟩, Kind.file⟩], stack1⟩

/-- One iteration of the parsing loop of `parse_structure_file`. -/
def processLine (s : ParseState) (line : String) : ParseState :=
  if skipLine line then s
  else processContent s (lineDepth line) (cleanItem line)

def parseState (lines : List String) : ParseState :=
  lines.foldl processLine ⟨[], []⟩

/-- The pure core of `parse_structure_file`: the entry list produced from
the input lines. -/
def parse_structure (lines : List String) : List Entry :=
  (parseState lines).out

/-- `parse_structure_file` including its only failure mode: reading or
decoding the input may fail (modelled as an `Except.error`); on decoded
input the parsing loop itself always succeeds. -/
def parse_structure_file (input : Except String (List String)) : Except String (List Entry) :=
  match input with
  | Except.error e => Except.error e
  | Except.ok lines => Except.ok (parse_structure lines)

/-- Splitting a character list at `/` separators, mirroring what
`p.split('/')` would produce on an emitted path string; used to state that
no emitted path has an empty component. -/
def splitSlash : List Char → List (List Char)
  | [] => [[]]
  | c :: rest =>
    if c = '/' then [] :: splitSlash rest
    else
      match splitSlash rest with
      | [] => [[c]]
      | x :: xs => (c :: x) :: xs

/-- A path string is good when none of its slash-separated components is
empty. -/
def GoodPath (p : String) : Prop := ∀ comp ∈ splitSlash p.data, comp ≠ []

/-- A line is label-ok when it is skipped, discarded, or its cleaned label
names a directory by a non-empty slash-free name, or a file whose label has
no empty slash-separated segment.  This is the hypothesis under which the
parser emits no empty path component. -/
def labelOk (line : String) : Bool :=
  if skipLine line then true
  else
    let item := cleanItem line
    if item.isEmpty then true
    else if item.getLast? = some '/' then
      !item.dropLast.isEmpty && !item.dropLast.contains '/'
    else
      (splitSlash item).all (fun seg => !seg.isEmpty)

/-- Most recently emitted directory entry of an output list. -/
def lastDir (l : List Entry) : Option Entry :=
  l.foldl (fun acc e => if e.kind = Kind.dir then some e else acc) none

/-- Depth of an emitted entry: the number of `/` separators in its path. -/
def entryDepth (e : Entry) : Nat := e.path.data.count '/'

/-- Maximum depth computed for any non-skipped line of the input. -/
def maxDepthSeen (lines : List String) : Nat :=
  lines.foldl (fun m line => if skipLine line then m else max m (lineDepth line)) 0

/-!  Filesystem materializer (`create_structure`).  The filesystem is
modelled as the set of existing directories plus a path-to-content map for
files; the model covers the exception-free execution (exceptions in the
source are environmental: permissions, races), with `base_dir` an explicit
base path string and `str(base_dir / path)` modelled by `pathJoin`. -/

structure FS where
  dirs : List String
  files : List (String × String)
deriving DecidableEq

structure Created where
  dirs : List String
  files : List String
deriving DecidableEq

/-- Model of `str(base / p)` for the relative paths the parser emits. -/
def pathJoin (b p : String) : String :=
  if b.data.isEmpty then p else ⟨b.data ++ '/' :: p.data⟩

def pathComponents (p : String) : List (List Char) := splitSlash p.data

/-- All ancestor paths of `p` including `p` itself, outermost first. -/
def ancestorsAndSelf (p : String) : List String :=
  (List.range (pathComponents p).length).map
    (fun i => ⟨joinSlash ((pathComponents p).take (i + 1))⟩)

/-- Model of `Path.parent`: drop the last path component; `none` when the
path has a single component (its parent is the current directory). -/
def parentPath (p : String) : Option String :=
  if (pathComponents p).length ≤ 1 then none
  else some ⟨joinSlash (pathComponents p).dropLast⟩

/-- Model of `Path.name`: the last path component. -/
def baseName (p : String) : String := ⟨(pathComponents p).getLastD []⟩

def FS.hasFile (fs : FS) (p : String) : Bool := fs.files.any (fun kv => kv.1 == p)

def FS.hasDir (fs : FS) (p : String) : Bool := fs.dirs.contains p

/-- Model of `full_path.exists()`: true for directories and files. -/
def FS.pathExists (fs : FS) (p : String) : Bool := fs.hasDir p || fs.hasFile p

def FS.content (fs : FS) (p : String) : Option String :=
  (fs.files.find? (fun kv => kv.1 == p)).map (fun kv => kv.2)

/-- Model of `mkdir(parents=True, exist_ok=True)`: add the missing
ancestors and the directory itself; never fails, never touches files. -/
def FS.mkdirParents (fs : FS) (p : String) : FS :=
  ⟨fs.dirs ++ (ancestorsAndSelf p).filter (fun d => !(fs.dirs.contains d)), fs.files⟩

/-- Writing a file: replaces any previous content at that path. -/
def FS.writeFile (fs : FS) (p : String) (c : String) : FS :=
  ⟨fs.dirs, fs.files.filter (fun kv => !(kv.1 == p)) ++ [(p, c)]⟩

def settingsJsonContent : String :=
  "\x7b\n    \"timer_intervals\": \x7b\n        \"focus\": 30,\n        \"short_break\": 5,\n        \"long_break\": 15\n    \x7d,\n    \"growth_stages\": \x7b\n        \"seed\": \x7b\n            \"minutes\": 0,\n            \"image\": \"seed.png\"\n        \x7d,\n        \"sprout\": \x7b\n            \"minutes\": 30,\n            \"image\": \"sprout.png\"\n        \x7d,\n        \"plant\": \x7b\n            \"minutes\": 60,\n            \"image\": \"plant.png\"\n        \x7d,\n        \"flower\": \x7b\n            \"minutes\": 90,\n            \"image\": \"flower.png\"\n        \x7d\n    \x7d\n\x7d"

def gitignoreContent : String :=
  "# Python\n__pycache__/\n*.py[cod]\n*.so\n.Python\n\n# Environment\n.env\n.venv\nenv/\nvenv/\n\n# IDE\n.vscode/\n.idea/\n*.swp\n*.swo\n*~\n\n# OS\n.DS_Store\nThumbs.db\n"

/-- Canned default contents written right after a file is newly created,
keyed by the file's name; `README.md` interpolates the base directory
name. -/
def seededContent (name : String) (baseDirName : String) : Option String :=
  if name = "__init__.py" then some "\"\"\"Package initialization.\"\"\"\n"
  else if name = "settings.json" then some settingsJsonContent
  else if name = "requirements.txt" then some "# Dependencies\nPillow>=9.0.0\n"
  else if name = "README.md" then
    some ("# " ++ baseDirName ++ "\n\nProject generated from structure file.\n")
  else if name = ".gitignore" then some gitignoreContent
  else none

/-- One iteration of the `create_structure` loop.  For a directory entry:
`mkdir(parents=True, exist_ok=True)` then append to `created['dirs']`.
For a file entry: create the parent directories, create and seed the file
only if the path does not already exist, then append to `created['files']`
— the append is outside the existence check, exactly as in the source. -/
def createStep (base : String) (st : FS × Created) (e : Entry) : FS × Created :=
  match e.kind with
  | Kind.dir =>
    (st.1.mkdirParents (pathJoin base e.path),
     ⟨st.2.dirs ++ [pathJoin base e.path], st.2.files⟩)
  | Kind.file =>
    let full := pathJoin base e.path
    let fs1 :=
      match parentPath full with
      | none => st.1
      | some pp => st.1.mkdirParents pp
    let fs2 :=
      if fs1.pathExists full then fs1
      else
        let fsTouched := fs1.writeFile full ""
        match seededContent (baseName full) (baseName base) with
        | some c => fsTouched.writeFile full c
        | none => fsTouched
    (fs2, ⟨st.2.dirs, st.2.files ++ [full]⟩)

/-- Model of `create_structure(paths, base_dir)` on an initial filesystem
state, returning the final state and the `created` report. -/
def create_structure (paths : List Entry) (base : String) (fs : FS) : FS × Created :=
  paths.foldl (createStep base) (fs, ⟨[], []⟩)

/-- Every stack element is a non-empty, slash-free segment name. -/
def StackOk (st : List (List Char)) : Prop :=
  ∀ x ∈ st, x ≠ [] ∧ ∀ c ∈ x, c ≠ '/'

/-!  Helper lemmas. -/

theorem splitSlash_ne_nil (l : List Char) : splitSlash l ≠ [] := by
  cases l with
  | nil => simp [splitSlash]
  | cons c rest =>
    unfold splitSlash
    by_cases h : c = '/'
    · simp [h]
    · simp only [h, if_false]
      cases hs : splitSlash rest <;> simp

theorem splitSlash_no_slash (x : List Char) (hx : ∀ c ∈ x, c ≠ '/') :
    splitSlash x = [x] := by
  induction x with
  | nil => rfl
  | cons c rest ih =>
    have hc : c ≠ '/' := hx c (by simp)
    have hr : splitSlash rest = [rest] := ih (fun d hd => hx d (by simp [hd]))
    simp [splitSlash, hc, hr]

theorem splitSlash_append_slash (x : List Char) (hx : ∀ c ∈ x, c ≠ '/')
    (r : List Char) : splitSlash (x ++ '/' :: r) = x :: splitSlash r := by
  induction x with
  | nil => simp [splitSlash]
  | cons c rest ih =>
    have hc : c ≠ '/' := hx c (by simp)
    have hr := ih (fun d hd => hx d (by simp [hd]))
    simp [splitSlash, hc, hr]

theorem joinSlash_cons (a : List Char) (l : List (List Char)) (hl : l ≠ []) :
    joinSlash (a :: l) = a ++ '/' :: joinSlash l := by
  cases l with
  | nil => exact absurd rfl hl
  | cons b m => rfl

theorem splitSlash_joinSlash_append (l : List (List Char))
    (hl : ∀ x ∈ l, ∀ c ∈ x, c ≠ '/') (y : List Char) :
    splitSlash (joinSlash (l ++ [y])) = l ++ splitSlash y := by
  induction l with
  | nil => simp [joinSlash]
  | cons a m ih =>
    have ha : ∀ c ∈ a, c ≠ '/' := hl a (by simp)
    have hm : ∀ x ∈ m, ∀ c ∈ x, c ≠ '/' := fun x hx => hl x (by simp [hx])
    have hne : m ++ [y] ≠ ([] : List (List Char)) := by simp
    rw [List.cons_append, joinSlash_cons a (m ++ [y]) hne,
      splitSlash_append_slash a ha, ih hm]
    rfl

theorem length_le_count_joinSlash (l : List (List Char)) :
    l.length ≤ (joinSlash l).count '/' + 1 := by
  induction l with
  | nil => simp
  | cons a m ih =>
    cases m with
    | nil => simp
    | cons b k =>
      rw [joinSlash_cons a (b :: k) (by simp)]
      have hcount : (a ++ '/' :: joinSlash (b :: k)).count '/' =
          a.count '/' + ((joinSlash (b :: k)).count '/' + 1) := by
        simp [List.count_append, List.count_cons]
      simp only [List.length_cons] at ih ⊢
      omega

theorem lastDir_append (l : List Entry) (e : Entry) :
    lastDir (l ++ [e]) = if e.kind = Kind.dir then some e else lastDir l := by
  simp [lastDir, List.foldl_append]

theorem processLine_of_skip (s : ParseState) (line : String)
    (h : skipLine line = true) : processLine s line = s := by
  simp [processLine, h]

theorem processLine_of_not_skip (s : ParseState) (line : String)
    (h : skipLine line = false) :
    processLine s line = processContent s (lineDepth line) (cleanItem line) := by
  simp [processLine, h]

theorem stackOk_take (st : List (List Char)) (n : Nat) (h : StackOk st) :
    StackOk (st.take n) :=
  fun x hx => h x (List.take_subset n st hx)

theorem goodPath_push (st : List (List Char)) (hst : StackOk st)
    (name : List Char) (hne : name ≠ []) (hns : ∀ c ∈ name, c ≠ '/') :
    GoodPath ⟨joinSlash (st ++ [name])⟩ := by
  intro comp hcomp
  have hsl : ∀ x ∈ st, ∀ c ∈ x, c ≠ '/' := fun x hx => (hst x hx).2
  have hsplit : splitSlash (joinSlash (st ++ [name])) = st ++ [name] := by
    rw [splitSlash_joinSlash_append st hsl name, splitSlash_no_slash name hns]
  rw [show (⟨joinSlash (st ++ [name])⟩ : String).data = joinSlash (st ++ [name]) from rfl,
    hsplit] at hcomp
  rcases List.mem_append.mp hcomp with h | h
  · exact (hst comp h).1
  · rw [List.mem_singleton.mp h]; exact hne

theorem goodPath_file (st : List (List Char)) (hst : StackOk st)
    (item : List Char) (hseg : ∀ seg ∈ splitSlash item, seg ≠ []) :
    GoodPath ⟨joinSlash (st ++ [item])⟩ := by
  intro comp hcomp
  have hsl : ∀ x ∈ st, ∀ c ∈ x, c ≠ '/' := fun x hx => (hst x hx).2
  have hsplit : splitSlash (joinSlash (st ++ [item])) = st ++ splitSlash item :=
    splitSlash_joinSlash_append st hsl item
  rw [show (⟨joinSlash (st ++ [item])⟩ : String).data = joinSlash (st ++ [item]) from rfl,
    hsplit] at hcomp
  rcases List.mem_append.mp hcomp with h | h
  · exact (hst comp h).1
  · exact hseg comp h

theorem bool_eq_false_of_ne_true {b : Bool} (h : ¬b = true) : b = false := by
  cases b
  · rfl
  · exact absurd rfl h

theorem processContent_of_empty (s : ParseState) (d : Nat) (item : List Char)
    (h : item.isEmpty = true) :
    processContent s d item = ⟨s.out, s.stack.take d⟩ := by
  simp [processContent, h]

theorem processContent_of_dir (s : ParseState) (d : Nat) (item : List Char)
    (hne : item.isEmpty = false) (h : item.getLast? = some '/') :
    processContent s d item =
      ⟨s.out ++ [⟨⟨joinSlash (s.stack.take d ++ [item.dropLast])⟩, Kind.dir⟩],
       s.stack.take d ++ [item.dropLast]⟩ := by
  simp [processContent, hne, h]

theorem processContent_of_file (s : ParseState) (d : Nat) (item : List Char)
    (hne : item.isEmpty = false) (h : ¬item.getLast? = some '/') :
    processContent s d item =
      ⟨s.out ++ [⟨⟨joinSlash (s.stack.take d ++ [item])⟩, Kind.file⟩],
       s.stack.take d⟩ := by
  simp [processContent, hne, h]

theorem labelOk_dir (line : String) (hl : labelOk line = true)
    (hskip : skipLine line = false) (hne : (cleanItem line).isEmpty = false)
    (hdir : (cleanItem line).getLast? = some '/') :
    (cleanItem line).dropLast ≠ [] ∧ ∀ c ∈ (cleanItem line).dropLast, c ≠ '/' := by
  simp only [labelOk, hskip, hne, hdir, Bool.false_eq_true, if_false, if_true,
    if_pos rfl, Bool.and_eq_true, Bool.not_eq_true'] at hl
  refine ⟨List.isEmpty_eq_false.mp hl.1, ?_⟩
  intro c hc hceq
  have hcontains : (cleanItem line).dropLast.contains '/' = true := by
    rw [List.contains_eq_any_beq]
    exact List.any_eq_true.mpr ⟨c, hc, by simp [hceq]⟩
  rw [hcontains] at hl
  exact absurd hl.2 (by simp)

theorem labelOk_file (line : String) (hl : labelOk line = true)
    (hskip : skipLine line = false) (hne : (cleanItem line).isEmpty = false)
    (hfile : ¬(cleanItem line).getLast? = some '/') :
    ∀ seg ∈ splitSlash (cleanItem line), seg ≠ [] := by
  simp only [labelOk, hskip, hne, hfile, Bool.false_eq_true, if_false,
    List.all_eq_true, Bool.not_eq_true'] at hl
  intro seg hseg
  exact List.isEmpty_eq_false.mp (hl seg hseg)

theorem processLine_keeps_good (s : ParseState) (line : String)
    (hl : labelOk line = true) (hstack : StackOk s.stack)
    (hout : ∀ e ∈ s.out, GoodPath e.path) :
    StackOk (processLine s line).stack ∧
      ∀ e ∈ (processLine s line).out, GoodPath e.path := by
  by_cases hskip : skipLine line = true
  · rw [processLine_of_skip s line hskip]
    exact ⟨hstack, hout⟩
  · have hskip' : skipLine line = false := bool_eq_false_of_ne_true hskip
    rw [processLine_of_not_skip s line hskip']
    have hstack1 : StackOk (s.stack.take (lineDepth line)) :=
      stackOk_take s.stack (lineDepth line) hstack
    by_cases hempty : (cleanItem line).isEmpty = true
    · rw [processContent_of_empty s (lineDepth line) (cleanItem line) hempty]
      exact ⟨hstack1, hout⟩
    · have hempty' : (cleanItem line).isEmpty = false := bool_eq_false_of_ne_true hempty
      by_cases hdir : (cleanItem line).getLast? = some '/'
      · rw [processContent_of_dir s (lineDepth line) (cleanItem line) hempty' hdir]
        obtain ⟨hne, hns⟩ := labelOk_dir line hl hskip' hempty' hdir
        constructor
        · intro x hx
          rcases List.mem_append.mp hx with h | h
          · exact hstack1 x h
          · rw [List.mem_singleton.mp h]
            exact ⟨hne, hns⟩
        · intro e he
          rcases List.mem_append.mp he with h | h
          · exact hout e h
          · rw [List.mem_singleton.mp h]
            exact goodPath_push _ hstack1 _ hne hns
      · rw [processContent_of_file s (lineDepth line) (cleanItem line) hempty' hdir]
        have hseg := labelOk_file line hl hskip' hempty' hdir
        refine ⟨hstack1, ?_⟩
        intro e he
        rcases List.mem_append.mp he with h | h
        · exact hout e h
        · rw [List.mem_singleton.mp h]
          exact goodPath_file _ hstack1 _ hseg

theorem foldl_keeps_good (lines : List String) :
    ∀ s : ParseState, (∀ line ∈ lines, labelOk line = true) →
      StackOk s.stack → (∀ e ∈ s.out, GoodPath e.path) →
      StackOk (lines.foldl processLine s).stack ∧
        ∀ e ∈ (lines.foldl processLine s).out, GoodPath e.path := by
  induction lines with
  | nil => exact fun s _ h1 h2 => ⟨h1, h2⟩
  | cons line rest ih =>
    intro s hl h1 h2
    have hline : labelOk line = true := hl line (by simp)
    have hrest : ∀ l ∈ rest, labelOk l = true := fun l h => hl l (by simp [h])
    obtain ⟨h1', h2'⟩ := processLine_keeps_good s line hline h1 h2
    exact ih (processLine s line) hrest h1' h2'

theorem take_length_le_self (st : List (List Char)) (n : Nat) :
    (st.take n).length ≤ st.length := by
  rw [List.length_take]
  omega

theorem processLine_keeps_lastDir (s : ParseState) (line : String)
    (h1 : lastDir s.out = none → s.stack = [])
    (h2 : ∀ e, lastDir s.out = some e → s.stack.length ≤ entryDepth e + 1) :
    (lastDir (processLine s line).out = none → (processLine s line).stack = []) ∧
      ∀ e, lastDir (processLine s line).out = some e →
        (processLine s line).stack.length ≤ entryDepth e + 1 := by
  by_cases hskip : skipLine line = true
  · rw [processLine_of_skip s line hskip]
    exact ⟨h1, h2⟩
  · rw [processLine_of_not_skip s line (bool_eq_false_of_ne_true hskip)]
    by_cases hempty : (cleanItem line).isEmpty = true
    · rw [processContent_of_empty s (lineDepth line) (cleanItem line) hempty]
      constructor
      · intro h
        rw [h1 h, List.take_nil]
      · intro e he
        exact le_trans (take_length_le_self s.stack (lineDepth line)) (h2 e he)
    · have hempty' : (cleanItem line).isEmpty = false := bool_eq_false_of_ne_true hempty
      by_cases hdir : (cleanItem line).getLast? = some '/'
      · rw [processContent_of_dir s (lineDepth line) (cleanItem line) hempty' hdir]
        simp only [lastDir_append, if_pos rfl]
        constructor
        · intro h
          exact absurd h (by simp)
        · intro e he
          have he' := (Option.some_inj.mp he).symm
          rw [he']
          exact length_le_count_joinSlash (s.stack.take (lineDepth line)
            ++ [(cleanItem line).dropLast])
      · rw [processContent_of_file s (lineDepth line) (cleanItem line) hempty' hdir]
        have hfk : (⟨⟨joinSlash (s.stack.take (lineDepth line) ++ [cleanItem line])⟩,
            Kind.file⟩ : Entry).kind = Kind.dir → False := by
          intro h
          exact Kind.noConfusion h
        simp only [lastDir_append, if_neg hfk]
        constructor
        · intro h
          rw [h1 h, List.take_nil]
        · intro e he
          exact le_trans (take_length_le_self s.stack (lineDepth line)) (h2 e he)

theorem foldl_keeps_lastDir (lines : List String) :
    ∀ s : ParseState,
      (lastDir s.out = none → s.stack = []) →
      (∀ e, lastDir s.out = some e → s.stack.length ≤ entryDepth e + 1) →
      (lastDir (lines.foldl processLine s).out = none →
        (lines.foldl processLine s).stack = []) ∧
      ∀ e, lastDir (lines.foldl processLine s).out = some e →
        (lines.foldl processLine s).stack.length ≤ entryDepth e + 1 := by
  induction lines with
  | nil => exact fun s h1 h2 => ⟨h1, h2⟩
  | cons line rest ih =>
    intro s h1 h2
    obtain ⟨h1', h2'⟩ := processLine_keeps_lastDir s line h1 h2
    exact ih (processLine s line) h1' h2'

theorem processContent_stack_length (s : ParseState) (d : Nat) (item : List Char) :
    (processContent s d item).stack.length ≤ d + 1 := by
  have htake : (s.stack.take d).length ≤ d := by
    rw [List.length_take]
    omega
  by_cases hempty : item.isEmpty = true
  · rw [processContent_of_empty s d item hempty]
    dsimp only
    omega
  · have hempty' := bool_eq_false_of_ne_true hempty
    by_cases hdir : item.getLast? = some '/'
    · rw [processContent_of_dir s d item hempty' hdir]
      simp only [List.length_append, List.length_cons, List.length_nil]
      omega
    · rw [processContent_of_file s d item hempty' hdir]
      dsimp only
      omega

theorem foldl_stack_le_maxDepth (lines : List String) :
    ∀ (s : ParseState) (m : Nat), s.stack.length ≤ m + 1 →
      (lines.foldl processLine s).stack.length ≤
        (lines.foldl (fun m line =>
          if skipLine line then m else max m (lineDepth line)) m) + 1 := by
  induction lines with
  | nil => exact fun s m h => h
  | cons line rest ih =>
    intro s m h
    simp only [List.foldl_cons]
    by_cases hskip : skipLine line = true
    · rw [processLine_of_skip s line hskip, if_pos hskip]
      exact ih s m h
    · have hskip' := bool_eq_false_of_ne_true hskip
      rw [processLine_of_not_skip s line hskip', if_neg hskip]
      apply ih
      have hb := processContent_stack_length s (lineDepth line) (cleanItem line)
      have hmax : lineDepth line ≤ max m (lineDepth line) := Nat.le_max_right m _
      omega

theorem processLine_out_length (s : ParseState) (line : String) :
    (processLine s line).out.length ≤ s.out.length + 1 := by
  by_cases hskip : skipLine line = true
  · rw [processLine_of_skip s line hskip]
    omega
  · rw [processLine_of_not_skip s line (bool_eq_false_of_ne_true hskip)]
    by_cases hempty : (cleanItem line).isEmpty = true
    · rw [processContent_of_empty s (lineDepth line) (cleanItem line) hempty]
      simp
    · have hempty' := bool_eq_false_of_ne_true hempty
      by_cases hdir : (cleanItem line).getLast? = some '/'
      · rw [processContent_of_dir s (lineDepth line) (cleanItem line) hempty' hdir]
        simp
      · rw [processContent_of_file s (lineDepth line) (cleanItem line) hempty' hdir]
        simp

theorem foldl_out_length (lines : List String) :
    ∀ s : ParseState,
      (lines.foldl processLine s).out.length ≤ s.out.length + lines.length := by
  induction lines with
  | nil => exact fun s => Nat.le_refl _
  | cons line rest ih =>
    intro s
    simp only [List.foldl_cons, List.length_cons]
    have h1 := processLine_out_length s line
    have h2 := ih (processLine s line)
    omega

theorem content_mkdirParents (fs : FS) (q p : String) :
    (fs.mkdirParents q).content p = fs.content p := rfl

theorem find?_key_filter_ne (l : List (String × String)) (p q : String)
    (h : ¬p = q) :
    (l.filter (fun kv => !(kv.1 == q))).find? (fun kv => kv.1 == p) =
      l.find? (fun kv => kv.1 == p) := by
  induction l with
  | nil => rfl
  | cons kv rest ih =>
    by_cases hq : kv.1 = q
    · have hpn : (kv.1 == p) = false := by
        rw [hq]
        exact beq_eq_false_iff_ne.mpr (fun hh => h hh.symm)
      have hpred : (!(kv.1 == q)) = false := by simp [hq]
      rw [List.filter_cons, hpred, if_neg (by simp),
        List.find?_cons_of_neg rest (by simp [hpn]), ih]
    · have hpred : (!(kv.1 == q)) = true := by simp [hq]
      rw [List.filter_cons, hpred, if_pos rfl]
      by_cases hp : kv.1 = p
      · rw [List.find?_cons_of_pos _ (by simp [hp]),
          List.find?_cons_of_pos _ (by simp [hp])]
      · rw [List.find?_cons_of_neg _ (by simp [hp]),
          List.find?_cons_of_neg _ (by simp [hp]), ih]

theorem content_writeFile_ne (fs : FS) (q p : String) (c : String)
    (h : ¬p = q) : (fs.writeFile q c).content p = fs.content p := by
  show (((fs.files.filter (fun kv => !(kv.1 == q)) ++ [(q, c)]).find?
    (fun kv => kv.1 == p)).map (fun kv => kv.2)) = _
  rw [List.find?_append, find?_key_filter_ne fs.files p q h]
  have hsingle : ([(q, c)].find? (fun kv => kv.1 == p)) = none := by
    rw [List.find?_cons_of_neg _ (by simp; exact fun hh => h hh.symm)]
    rfl
  rw [hsingle, Option.or_none]
  rfl

theorem hasFile_of_content (fs : FS) (p : String) (c : String)
    (h : fs.content p = some c) : fs.hasFile p = true := by
  unfold FS.content at h
  cases hf : fs.files.find? (fun kv => kv.1 == p) with
  | none => rw [hf] at h; exact Option.noConfusion h
  | some kv =>
    have hm := List.mem_of_find?_eq_some hf
    have hp := List.find?_some hf
    exact List.any_eq_true.mpr ⟨kv, hm, hp⟩

theorem createStep_content (base : String) (st : FS × Created) (e : Entry)
    (p : String) (c : String) (h : st.1.content p = some c) :
    ((createStep base st e).1).content p = some c := by
  cases hk : e.kind with
  | dir =>
    simp only [createStep, hk]
    rw [content_mkdirParents]
    exact h
  | file =>
    simp only [createStep, hk]
    have hfs1 : (match parentPath (pathJoin base e.path) with
        | none => st.1
        | some pp => st.1.mkdirParents pp).content p = some c := by
      cases hpp : parentPath (pathJoin base e.path) with
      | none => exact h
      | some pp => rw [content_mkdirParents]; exact h
    set fs1 := (match parentPath (pathJoin base e.path) with
      | none => st.1
      | some pp => st.1.mkdirParents pp) with hfs1def
    by_cases hex : fs1.pathExists (pathJoin base e.path) = true
    · simp only [hex, if_true]
      exact hfs1
    · have hex' := bool_eq_false_of_ne_true hex
      simp only [hex', Bool.false_eq_true, if_false]
      have hpn : ¬p = pathJoin base e.path := by
        intro heq
        have hfile : fs1.hasFile (pathJoin base e.path) = true := by
          rw [← heq]
          exact hasFile_of_content fs1 p c hfs1
        have : fs1.pathExists (pathJoin base e.path) = true := by
          unfold FS.pathExists
          rw [hfile, Bool.or_true]
        exact hex this
      cases hsc : seededContent (baseName (pathJoin base e.path)) (baseName base) with
      | none =>
        simp only [hsc]
        rw [content_writeFile_ne fs1 (pathJoin base e.path) p "" hpn]
        exact hfs1
      | some sc =>
        simp only [hsc]
        rw [content_writeFile_ne _ (pathJoin base e.path) p sc hpn,
          content_writeFile_ne fs1 (pathJoin base e.path) p "" hpn]
        exact hfs1

theorem foldl_createStep_content (entries : List Entry) (base : String) :
    ∀ (st : FS × Created) (p : String) (c : String), st.1.content p = some c →
      ((entries.foldl (createStep base) st).1).content p = some c := by
  induction entries with
  | nil => exact fun st p c h => h
  | cons e rest ih =>
    intro st p c h
    simp only [List.foldl_cons]
    exact ih (createStep base st e) p c (createStep_content base st e p c h)

theorem foldl_createStep_dirs (entries : List Entry) (base : String) :
    ∀ (fs : FS) (cr : Created),
      (entries.foldl (createStep base) (fs, cr)).2.dirs =
        cr.dirs ++ (entries.filter (fun e => e.kind == Kind.dir)).map
          (fun e => pathJoin base e.path) := by
  induction entries with
  | nil => intro fs cr; simp
  | cons e rest ih =>
    intro fs cr
    simp only [List.foldl_cons]
    cases hk : e.kind with
    | dir =>
      have hstep : createStep base (fs, cr) e =
          (fs.mkdirParents (pathJoin base e.path),
           ⟨cr.dirs ++ [pathJoin base e.path], cr.files⟩) := by
        simp [createStep, hk]
      rw [hstep, ih]
      simp [List.filter_cons, hk]
    | file =>
      have hfb : (e.kind == Kind.dir) = false := by rw [hk]; rfl
      have hstep2 := ih ((createStep base (fs, cr) e).1) ((createStep base (fs, cr) e).2)
      have hcr2 : (createStep base (fs, cr) e).2.dirs = cr.dirs := by
        simp [createStep, hk]
      rw [show createStep base (fs, cr) e =
        ((createStep base (fs, cr) e).1, (createStep base (fs, cr) e).2) from rfl,
        hstep2, hcr2, List.filter_cons, hfb]
      simp

theorem foldl_createStep_files (entries : List Entry) (base : String) :
    ∀ (fs : FS) (cr : Created),
      (entries.foldl (createStep base) (fs, cr)).2.files =
        cr.files ++ (entries.filter (fun e => e.kind == Kind.file)).map
          (fun e => pathJoin base e.path) := by
  induction entries with
  | nil => intro fs cr; simp
  | cons e rest ih =>
    intro fs cr
    simp only [List.foldl_cons]
    cases hk : e.kind with
    | dir =>
      have hfb : (e.kind == Kind.file) = false := by rw [hk]; rfl
      have hstep2 := ih ((createStep base (fs, cr) e).1) ((createStep base (fs, cr) e).2)
      have hcr2 : (createStep base (fs, cr) e).2.files = cr.files := by
        simp [createStep, hk]
      rw [show createStep base (fs, cr) e =
        ((createStep base (fs, cr) e).1, (createStep base (fs, cr) e).2) from rfl,
        hstep2, hcr2, List.filter_cons, hfb]
      simp
    | file =>
      have hstep2 := ih ((createStep base (fs, cr) e).1) ((createStep base (fs, cr) e).2)
      have hcr2 : (createStep base (fs, cr) e).2.files =
          cr.files ++ [pathJoin base e.path] := by
        simp [createStep, hk]
      rw [show createStep base (fs, cr) e =
        ((createStep base (fs, cr) e).1, (createStep base (fs, cr) e).2) from rfl,
        hstep2, hcr2, List.filter_cons]
      simp [hk]

/-!  Claim theorems. -/

/-- C1, counterexample: on the four-line input with two-space indentation
the parser does not produce the entry `(a/b/c.py, file)` the claim lists:
line `  c.py` has depth 1, so the stack is popped from `[a, b]` to `[a]`
before the file entry is emitted. -/
theorem c1_counterexample :
    parse_structure ["a/", "  b/", "  c.py", "d/"] ≠
      [⟨"a", Kind.dir⟩, ⟨"a/b", Kind.dir⟩, ⟨"a/b/c.py", Kind.file⟩,
       ⟨"d", Kind.dir⟩] := by
  decide

/-- C1, amended: parsing `a/`, `  b/`, `  c.py`, `d/` (depths 0,1,1,0)
yields exactly the ordered entries `(a, dir)`, `(a/b, dir)`,
`(a/c.py, file)`, `(d, dir)`: `c.py` at depth 1 is a sibling of `b` under
`a`, and `d` is not nested under `a`. -/
theorem c1_sibling_after_deeper_branch :
    parse_structure ["a/", "  b/", "  c.py", "d/"] =
      [⟨"a", Kind.dir⟩, ⟨"a/b", Kind.dir⟩, ⟨"a/c.py", Kind.file⟩,
       ⟨"d", Kind.dir⟩] := by
  decide

/-- C2: parsing the four-line box-drawing input yields exactly the ordered
entries `(myproject, dir)`, `(myproject/README.md, file)`,
`(myproject/src, dir)`, `(myproject/src/main.py, file)`. -/
theorem c2_box_drawing_roundtrip :
    parse_structure ["myproject/", "├── README.md", "├── src/", "│   └── main.py"] =
      [⟨"myproject", Kind.dir⟩, ⟨"myproject/README.md", Kind.file⟩,
       ⟨"myproject/src", Kind.dir⟩, ⟨"myproject/src/main.py", Kind.file⟩] := by
  decide

/-- C3: two sibling directories rendered at the same box-drawing
indentation nest one under the other: both box lines compute depth 3, the
stack has length 2 after pushing `a` and is never popped before `b` is
pushed, so the output is `(x, dir)`, `(x/a, dir)`, `(x/a/b, dir)`. -/
theorem c3_box_siblings_nest :
    lineDepth "├── a/" = 3 ∧ lineDepth "├── b/" = 3 ∧
    (parseState ["x/", "├── a/"]).stack.length = 2 ∧
    parse_structure ["x/", "├── a/", "├── b/"] =
      [⟨"x", Kind.dir⟩, ⟨"x/a", Kind.dir⟩, ⟨"x/a/b", Kind.dir⟩] := by
  decide

/-- C4, counterexample: a line consisting only of dashes (no space) is NOT
skipped — the separator test requires both a dash and a space — so `---`
contributes a file entry instead of zero entries. -/
theorem c4_counterexample :
    (("---" : String).data.all (fun c => c == '-' || c == ' ')) = true ∧
    parse_structure ["---"] = [⟨"---", Kind.file⟩] ∧
    parse_structure ["---"] ≠ [] := by
  decide

/-- C4, amended: every line that, after trailing-whitespace trimming, is
empty, consists of dashes and spaces with at least one of each, or begins
with three backticks, contributes zero entries and leaves the path stack
unchanged (a line of dashes alone is instead treated as content). -/
theorem c4_skip_lines (s : ParseState) (line : String)
    (h : pyRstrip line.data = [] ∨ isSepLine (pyRstrip line.data) = true ∨
      isFence (pyRstrip line.data) = true) :
    processLine s line = s := by
  apply processLine_of_skip
  rcases h with h | h | h <;> simp [skipLine, h]

/-- Witness for C4 at the concrete separator line `- -`. -/
theorem c4_skip_lines_witness :
    processLine ⟨[], [['a']]⟩ "- -" = ⟨[], [['a']]⟩ :=
  c4_skip_lines ⟨[], [['a']]⟩ "- -" (Or.inr (Or.inl (by decide)))

/-- C5, counterexample: a comment-only line is not side-effect free — it
pops the stack before being discarded.  With the comment line `#x` present,
`  b.txt` resolves to `b.txt`; without it, to `a/b.txt`. -/
theorem c5_counterexample :
    parse_structure ["a/", "#x", "  b.txt"] =
      [⟨"a", Kind.dir⟩, ⟨"b.txt", Kind.file⟩] ∧
    parse_structure ["a/", "  b.txt"] =
      [⟨"a", Kind.dir⟩, ⟨"a/b.txt", Kind.file⟩] ∧
    parse_structure ["a/", "#x", "  b.txt"] ≠ parse_structure ["a/", "  b.txt"] := by
  decide

/-- C5, amended: a line whose label is empty after comment stripping
contributes no entry, but it does affect the path stack: the stack is
popped down to the line's computed depth before the line is discarded, so
subsequent lines resolve against the popped stack. -/
theorem c5_comment_only_pops (s : ParseState) (line : String)
    (h1 : skipLine line = false) (h2 : cleanItem line = []) :
    processLine s line = ⟨s.out, s.stack.take (lineDepth line)⟩ := by
  rw [processLine_of_not_skip s line h1,
    processContent_of_empty s (lineDepth line) (cleanItem line) (by rw [h2]; rfl)]

/-- Witness for C5: the comment-only line `#x` at depth 0 empties a
one-element stack. -/
theorem c5_comment_only_pops_witness :
    processLine ⟨[], [['a']]⟩ "#x" = ⟨[], []⟩ := by
  rw [c5_comment_only_pops ⟨[], [['a']]⟩ "#x" (by decide) (by decide)]
  decide

/-- C6, counterexample: the single line `/` emits the entry `("", dir)`,
whose path is empty (and has an empty component). -/
theorem c6_counterexample :
    parse_structure ["/"] = [⟨"", Kind.dir⟩] ∧ ¬GoodPath "" := by
  constructor
  · decide
  · intro h
    exact h [] (by decide) rfl

/-- C6, amended: provided every line's cleaned label is well formed — a
directory label is a non-empty slash-free name followed by `/`, a file
label has no empty slash-separated segment — every emitted entry has a
non-empty path with no empty path component. -/
theorem c6_no_empty_components (lines : List String)
    (h : ∀ line ∈ lines, labelOk line = true) :
    ∀ e ∈ parse_structure lines, GoodPath e.path ∧ e.path ≠ "" := by
  obtain ⟨hs, ho⟩ := foldl_keeps_good lines ⟨[], []⟩ h
    (fun x hx => absurd hx (List.not_mem_nil x))
    (fun e he => absurd he (List.not_mem_nil e))
  intro e he
  refine ⟨ho e he, ?_⟩
  intro heq
  have hgp := ho e he
  rw [heq] at hgp
  exact hgp [] (by decide) rfl

/-- Witness for C6 at the one-line input `a/`. -/
theorem c6_no_empty_components_witness :
    GoodPath ("a" : String) ∧ ("a" : String) ≠ "" :=
  c6_no_empty_components ["a/"] (by decide) ⟨"a", Kind.dir⟩ (by decide)

/-- C7, counterexample: after processing `a/`, `  b/`, `  c.py` the most
recently emitted directory entry is `(a/b, dir)` of depth 1, yet the stack
has length 1, not 1 + 1 — the file line popped the stack below the last
directory's depth. -/
theorem c7_counterexample :
    lastDir (parseState ["a/", "  b/", "  c.py"]).out = some ⟨"a/b", Kind.dir⟩ ∧
    (parseState ["a/", "  b/", "  c.py"]).stack.length = 1 ∧
    entryDepth ⟨"a/b", Kind.dir⟩ + 1 ≠ 1 := by
  decide

/-- C7, amended: at every point during parsing (i.e. after any list of
processed lines, prefixes included), the path stack's length is at most
the depth of the most recently emitted directory entry plus one, and the
stack is empty while no directory entry has been emitted; equality need
not hold, since later lines may pop the stack below that depth. -/
theorem c7_stack_vs_last_dir (lines : List String) :
    (lastDir (parseState lines).out = none → (parseState lines).stack = []) ∧
    ∀ e, lastDir (parseState lines).out = some e →
      (parseState lines).stack.length ≤ entryDepth e + 1 :=
  foldl_keeps_lastDir lines ⟨[], []⟩ (fun _ => rfl)
    (fun _ he => Option.noConfusion he)

/-- Witness for C7 at the one-line input `a/`. -/
theorem c7_stack_vs_last_dir_witness :
    (parseState ["a/"]).stack.length ≤ entryDepth ⟨"a", Kind.dir⟩ + 1 :=
  (c7_stack_vs_last_dir ["a/"]).2 ⟨"a", Kind.dir⟩ (by decide)

/-- C8: the computed depth of every line is non-negative, and after
processing any list of lines (prefixes of an input included, since a
prefix is itself an input) the stack's length is at most the maximum depth
computed for any non-skipped line plus one. -/
theorem c8_stack_le_max_depth (lines : List String) :
    (parseState lines).stack.length ≤ maxDepthSeen lines + 1 ∧
    ∀ line : String, 0 ≤ lineDepth line := by
  constructor
  · exact foldl_stack_le_maxDepth lines ⟨[], []⟩ 0 (by simp)
  · exact fun line => Nat.zero_le _

/-- C9, counterexample: materializing a file entry whose path already
exists leaves the filesystem unchanged — nothing is created — yet the
created-files report still lists it, so the report does not contain only
items actually created in this run. -/
theorem c9_counterexample :
    (create_structure [⟨"a.txt", Kind.file⟩] "" ⟨[], [("a.txt", "hello")]⟩).2.files =
      ["a.txt"] ∧
    (create_structure [⟨"a.txt", Kind.file⟩] "" ⟨[], [("a.txt", "hello")]⟩).1 =
      ⟨[], [("a.txt", "hello")]⟩ ∧
    FS.pathExists ⟨[], [("a.txt", "hello")]⟩ "a.txt" = true := by
  decide

/-- C9, amended: a file entry whose target path already exists is left
with its contents unchanged (and, exceptions being environmental, is not
an error), but the created-directories and created-files reports record
every directory and file entry processed, whether or not it already
existed. -/
theorem c9_materialize (entries : List Entry) (base : String) (fs : FS) :
    (∀ p c, fs.content p = some c →
      (create_structure entries base fs).1.content p = some c) ∧
    (create_structure entries base fs).2.dirs =
      (entries.filter (fun e => e.kind == Kind.dir)).map
        (fun e => pathJoin base e.path) ∧
    (create_structure entries base fs).2.files =
      (entries.filter (fun e => e.kind == Kind.file)).map
        (fun e => pathJoin base e.path) := by
  refine ⟨?_, ?_, ?_⟩
  · intro p c h
    exact foldl_createStep_content entries base (fs, ⟨[], []⟩) p c h
  · unfold create_structure
    rw [foldl_createStep_dirs entries base fs ⟨[], []⟩]
    simp
  · unfold create_structure
    rw [foldl_createStep_files entries base fs ⟨[], []⟩]
    simp

/-- Witness for C9: a pre-existing file `x` keeps its content across a
run that creates the directory `d`. -/
theorem c9_materialize_witness :
    (create_structure [⟨"d", Kind.dir⟩] "" ⟨[], [("x", "y")]⟩).1.content "x" =
      some "y" :=
  (c9_materialize [⟨"d", Kind.dir⟩] "" ⟨[], [("x", "y")]⟩).1 "x" "y" (by decide)

/-- C10: on decoded input the parser is total — it returns an entry list
(of at most one entry per line) without failing, whatever the
indentation — and an unreadable or undecodable source is the only failure,
passed through to the caller. -/
theorem c10_parse_total (lines : List String) :
    parse_structure_file (Except.ok lines) = Except.ok (parse_structure lines) ∧
    (parse_structure lines).length ≤ lines.length ∧
    ∀ msg : String, parse_structure_file (Except.error msg) = Except.error msg := by
  refine ⟨rfl, ?_, fun msg => rfl⟩
  have h := foldl_out_length lines ⟨[], []⟩
  simpa using h

end StructureBuilder
